import Mathlib

/-!
Verification of the GitSuperRepository submodule-management library.

The development shallowly embeds the methods of the GitSuperRepository class
(file GitSuperRepository.py): pure string processing is translated to functions
over List Char / String, stateful methods become explicit state-passing
functions over a small repository-state record, and external git/hg processes
are abstracted as environment records giving the observable result of each
invocation (its stdout, or whether it exited nonzero).  Fallible steps return
Option / Bool failure flags, mirroring raised exceptions.
-/

/- ===================================================================
   Python string primitives (modelled at the character-list level)
   =================================================================== -/

/-- Model of Python str.split on a single-character separator: splitting the
empty string yields one empty field, and every separator occurrence opens a
new field (the recursive call never returns an empty list, so prepending the
current character to the first field via headI is exact).  Used by the source
method num_lines, which splits on a newline. -/
def pySplit (sep : Char) : List Char → List (List Char)
  | [] => [[]]
  | c :: rest =>
    if c = sep then [] :: pySplit sep rest
    else (c :: (pySplit sep rest).headI) :: (pySplit sep rest).tail

/-- Model of Python str.rstrip with a single-character argument: removes every
trailing occurrence of that character. -/
def pyRstrip (a : Char) : List Char → List Char
  | [] => []
  | c :: rest =>
    if pyRstrip a rest = [] then (if c = a then [] else [c])
    else c :: pyRstrip a rest

/-- Source method GitSuperRepository.__num_lines: enumerates test.split of a
newline and returns the final index plus one, i.e. the length of the split. -/
def num_lines (test : List Char) : Nat :=
  (pySplit '\n' test).length

/- ===================================================================
   is_submodule (claim C5)

   The source runs "git ls-files --stage -- path"; git_command strips the
   trailing newlines from the subprocess output before returning it.  One
   tracked entry is printed per line as "<mode> <sha> <stage>\t<path>".
   =================================================================== -/

/-- A line of git ls-files --stage output, field by field. -/
structure StageEntry where
  mode : List Char
  sha : List Char
  stageNum : List Char
  entryPath : List Char
deriving DecidableEq

/-- Render one ls-files --stage output line for an entry. -/
def renderEntry (e : StageEntry) : List Char :=
  e.mode ++ (' ' :: e.sha) ++ (' ' :: e.stageNum) ++ ('\t' :: e.entryPath)

/-- Raw stdout of git ls-files --stage: one rendered line per entry, each
terminated by a newline (empty output for no entries). -/
def lsFilesRaw : List StageEntry → List Char
  | [] => []
  | e :: es => renderEntry e ++ '\n' :: lsFilesRaw es

/-- Source method GitSuperRepository.is_submodule, as a function of the raw
ls-files stdout: git_command rstrips trailing newlines from the subprocess
output, then the method returns False unless the output has exactly one line,
and compares the first six characters of the output with the gitlink mode
string 160000. -/
def is_submodule (raw : List Char) : Bool :=
  if num_lines (pyRstrip '\n' raw) ≠ 1 then false
  else if (pyRstrip '\n' raw).take 6 = "160000".data then true else false

/- Helper lemmas about the Python string primitives. -/

theorem pySplit_ne_nil (sep : Char) (l : List Char) : pySplit sep l ≠ [] := by
  cases l with
  | nil => simp [pySplit]
  | cons c rest =>
    simp only [pySplit]
    split <;> simp

theorem pySplit_of_no_sep (sep : Char) (l : List Char)
    (h : ∀ c ∈ l, c ≠ sep) : pySplit sep l = [l] := by
  induction l with
  | nil => rfl
  | cons c rest ih =>
    have hc : c ≠ sep := h c (by simp)
    have hrest : pySplit sep rest = [rest] := ih (fun x hx => h x (by simp [hx]))
    simp [pySplit, hc, hrest]

theorem pySplit_append_sep (sep : Char) (l t : List Char)
    (h : ∀ c ∈ l, c ≠ sep) :
    pySplit sep (l ++ sep :: t) = l :: pySplit sep t := by
  induction l with
  | nil => simp [pySplit]
  | cons c rest ih =>
    have hc : c ≠ sep := h c (by simp)
    have hrest := ih (fun x hx => h x (by simp [hx]))
    simp [pySplit, hc, hrest]

theorem pyRstrip_of_no_occ (a : Char) (l : List Char)
    (h : ∀ c ∈ l, c ≠ a) : pyRstrip a l = l := by
  induction l with
  | nil => rfl
  | cons c rest ih =>
    have hc : c ≠ a := h c (by simp)
    have hrest : pyRstrip a rest = rest := ih (fun x hx => h x (by simp [hx]))
    simp only [pyRstrip, hrest]
    cases rest with
    | nil => simp [hc]
    | cons d ds => simp

theorem pyRstrip_append_singleton (a : Char) (l : List Char) :
    pyRstrip a (l ++ [a]) = pyRstrip a l := by
  induction l with
  | nil => simp [pyRstrip]
  | cons c rest ih => simp [pyRstrip, ih]

theorem pyRstrip_append_of_ne_nil (a : Char) (l m : List Char)
    (h : pyRstrip a m ≠ []) : pyRstrip a (l ++ m) = l ++ pyRstrip a m := by
  induction l with
  | nil => simp
  | cons c rest ih =>
    have hni : pyRstrip a (rest ++ m) ≠ [] := by
      rw [ih]
      simp [h]
    show pyRstrip a (c :: (rest ++ m)) = c :: (rest ++ pyRstrip a m)
    rw [show pyRstrip a (c :: (rest ++ m)) =
        if pyRstrip a (rest ++ m) = [] then (if c = a then [] else [c])
        else c :: pyRstrip a (rest ++ m) from rfl]
    rw [if_neg hni, ih]

/-- Join output lines with a separating newline (the shape of ls-files stdout
after stripping the trailing newline). -/
def joinLines : List (List Char) → List Char
  | [] => []
  | [l] => l
  | l :: ls => l ++ '\n' :: joinLines ls

theorem joinLines_ne_nil (l : List Char) (ls : List (List Char))
    (h : l ≠ []) : joinLines (l :: ls) ≠ [] := by
  cases ls with
  | nil => simpa [joinLines]
  | cons m ms => simp [joinLines, h]

theorem pyRstrip_lsFilesRaw (es : List StageEntry)
    (h : ∀ e ∈ es, (∀ c ∈ renderEntry e, c ≠ '\n') ∧ renderEntry e ≠ []) :
    pyRstrip '\n' (lsFilesRaw es) = joinLines (es.map renderEntry) := by
  induction es with
  | nil => rfl
  | cons e es ih =>
    have he := h e (by simp)
    cases es with
    | nil =>
      show pyRstrip '\n' (renderEntry e ++ ['\n']) = renderEntry e
      rw [pyRstrip_append_singleton, pyRstrip_of_no_occ _ _ he.1]
    | cons e2 es2 =>
      have ih2 := ih (fun x hx => h x (by simp [List.mem_cons] at hx ⊢; tauto))
      have hne : pyRstrip '\n' (lsFilesRaw (e2 :: es2)) ≠ [] := by
        rw [ih2]
        simp only [List.map_cons]
        exact joinLines_ne_nil _ _ (h e2 (by simp)).2
      have heq : renderEntry e ++ '\n' :: lsFilesRaw (e2 :: es2)
           = (renderEntry e ++ ['\n']) ++ lsFilesRaw (e2 :: es2) := by simp
      show pyRstrip '\n' (renderEntry e ++ '\n' :: lsFilesRaw (e2 :: es2)) = _
      rw [heq, pyRstrip_append_of_ne_nil _ _ _ hne, ih2]
      simp [joinLines]

theorem pySplit_joinLines (ls : List (List Char))
    (h : ∀ l ∈ ls, ∀ c ∈ l, c ≠ '\n') (hne : ls ≠ []) :
    pySplit '\n' (joinLines ls) = ls := by
  induction ls with
  | nil => exact absurd rfl hne
  | cons l ls ih =>
    cases ls with
    | nil => exact pySplit_of_no_sep _ _ (h l (by simp))
    | cons m ms =>
      show pySplit '\n' (l ++ '\n' :: joinLines (m :: ms)) = _
      rw [pySplit_append_sep _ _ _ (h l (by simp))]
      rw [ih (fun x hx => h x (by simp [List.mem_cons] at hx ⊢; tauto)) (by simp)]

/-- Claim C5: is_submodule returns true iff the tracked-path listing yields
exactly one entry and that entry carries the gitlink mode marker 160000; a
listing with zero entries, more than one entry, or one non-gitlink entry
yields false, and the function is total (never an error or a retry). -/
theorem is_submodule_iff_single_gitlink (es : List StageEntry)
    (h : ∀ e ∈ es, e.mode.length = 6 ∧ ∀ c ∈ renderEntry e, c ≠ '\n') :
    is_submodule (lsFilesRaw es) = true ↔ ∃ e, es = [e] ∧ e.mode = "160000".data := by
  have hre : ∀ e ∈ es, renderEntry e ≠ [] := by
    intro e he
    have hm : e.mode.length = 6 := (h e he).1
    unfold renderEntry
    intro hc
    rcases List.append_eq_nil.mp (List.append_eq_nil.mp (List.append_eq_nil.mp hc).1).1
      with ⟨hmode, -⟩
    simp [hmode] at hm
  have hstrip : pyRstrip '\n' (lsFilesRaw es) = joinLines (es.map renderEntry) :=
    pyRstrip_lsFilesRaw es (fun e he => ⟨(h e he).2, hre e he⟩)
  cases es with
  | nil =>
    simp only [lsFilesRaw, is_submodule]
    constructor
    · intro hcontra
      simp [pyRstrip, num_lines, pySplit] at hcontra
    · rintro ⟨e, he, -⟩; simp at he
  | cons e es2 =>
    have hsplit : pySplit '\n' (joinLines ((e :: es2).map renderEntry))
        = (e :: es2).map renderEntry := by
      apply pySplit_joinLines
      · intro l hl
        rcases List.mem_map.mp hl with ⟨x, hx, rfl⟩
        exact (h x hx).2
      · simp
    cases es2 with
    | nil =>
      have hmode : e.mode.length = 6 := (h e (by simp)).1
      have htake : (renderEntry e).take 6 = e.mode := by
        unfold renderEntry
        rw [List.append_assoc, List.append_assoc]
        calc (e.mode ++ (' ' :: e.sha ++ (' ' :: e.stageNum ++ '\t' :: e.entryPath))).take 6
            = (e.mode ++ _).take e.mode.length := by rw [hmode]
          _ = e.mode := List.take_left e.mode _
      have hnl : num_lines (joinLines ([e].map renderEntry)) = 1 := by
        unfold num_lines
        rw [hsplit]
        simp
      have hjoin : joinLines ([e].map renderEntry) = renderEntry e := by simp [joinLines]
      unfold is_submodule
      rw [hstrip, hnl]
      simp only [ne_eq, not_true_eq_false, if_false, reduceIte]
      rw [hjoin, htake]
      constructor
      · intro hh
        refine ⟨e, rfl, ?_⟩
        by_contra hcon
        simp [hcon] at hh
      · rintro ⟨x, hx, hmx⟩
        obtain rfl : e = x := by simpa using hx
        simp [hmx]
    | cons e2 es3 =>
      have hnl : num_lines (joinLines ((e :: e2 :: es3).map renderEntry))
          = es3.length + 2 := by
        unfold num_lines
        rw [hsplit]
        simp
      unfold is_submodule
      rw [hstrip, hnl]
      rw [if_pos (by omega)]
      constructor
      · intro hcontra; exact absurd hcontra (by simp)
      · rintro ⟨x, hx, -⟩; simp at hx

/-- Concrete instantiation of the is_submodule characterisation: a single
gitlink entry is accepted, discharging the hypotheses by evaluation. -/
theorem is_submodule_iff_single_gitlink_witness :
    (∀ e ∈ [StageEntry.mk "160000".data "abc0".data "0".data "libs/foo".data],
        e.mode.length = 6 ∧ ∀ c ∈ renderEntry e, c ≠ '\n') ∧
    (is_submodule (lsFilesRaw
        [StageEntry.mk "160000".data "abc0".data "0".data "libs/foo".data]) = true ↔
      ∃ e, [StageEntry.mk "160000".data "abc0".data "0".data "libs/foo".data] = [e] ∧
        e.mode = "160000".data) :=
  ⟨by decide, is_submodule_iff_single_gitlink _ (by decide)⟩

/- ===================================================================
   Scoped configuration files (.gitmodules and the internal git config)

   git config reads and writes key/value pairs grouped in named sections.
   The submodule sections of a file are modelled as an ordered list of
   sections; a section named p stands for the file section
   [submodule "p"], addressed by the source through keys of the form
   submodule.<p>.<option>.  Files written by git config never contain two
   sections with the same name; theorems that depend on uniqueness carry a
   Nodup hypothesis on the section names.
   =================================================================== -/

/-- One section of a git configuration file: its name (the submodule path)
and its key/value entries in file order. -/
structure GSection where
  name : String
  entries : List (String × String)
deriving DecidableEq

/-- A git configuration file restricted to its submodule sections. -/
abbrev GFile := List GSection

/-- First value bound to a key in a section body. -/
def getFirst : List (String × String) → String → Option String
  | [], _ => none
  | e :: es, k => if e.1 = k then some e.2 else getFirst es k

/-- Replace the first binding of a key in a section body, or append one. -/
def setFirst : List (String × String) → String → String → List (String × String)
  | [], k, v => [(k, v)]
  | e :: es, k, v => if e.1 = k then (k, v) :: es else e :: setFirst es k v

/-- git config --file f submodule.<sec>.<key>: read a value. -/
def sGet : GFile → String → String → Option String
  | [], _, _ => none
  | s :: f, sec, k => if s.name = sec then getFirst s.entries k else sGet f sec k

/-- git config --file f submodule.<sec>.<key> <value>: write a value,
creating the section if it is absent. -/
def sSet : GFile → String → String → String → GFile
  | [], sec, k, v => [⟨sec, [(k, v)]⟩]
  | s :: f, sec, k, v =>
    if s.name = sec then ⟨sec, setFirst s.entries k v⟩ :: f
    else s :: sSet f sec k v

/-- Whether a file contains a section with the given name. -/
def hasSection (f : GFile) (sec : String) : Bool :=
  f.any (fun s => s.name = sec)

/-- Rename a section header, keeping its entries (the effect of
git config --rename-section); renaming a section that does not exist makes
git config exit nonzero, modelled as none. -/
def renSec (o n : String) (s : GSection) : GSection :=
  if s.name = o then ⟨n, s.entries⟩ else s

def sRenameSection (f : GFile) (o n : String) : Option GFile :=
  if hasSection f o then some (f.map (renSec o n)) else none

/-- Remove a section and its entries (git config --remove-section);
removing an absent section makes git config exit nonzero, modelled as none. -/
def sRemoveSection (f : GFile) (sec : String) : Option GFile :=
  if hasSection f sec then some (f.filter (fun s => s.name ≠ sec)) else none

/-- List all submodules declared in a gitmodules file.  The source matches
each line against the section-header pattern [submodule "(.*)"] and collects
the captured names in file order; for well-formed files (one header line per
section) that is exactly the list of section names. -/
def list_submodules (f : GFile) : List String :=
  f.map (·.name)

/- Source wrappers get_gitmodules_config / set_gitmodules_config address the
.gitmodules file with the submodule.<module>.<option> namespace. -/

def get_gitmodules_config (f : GFile) (module option : String) : Option String :=
  sGet f module option

def set_gitmodules_config (f : GFile) (module option value : String) : GFile :=
  sSet f module option value

/-- Source method upstream_type: read submodule.<path>.upstreamtype. -/
def upstream_type (f : GFile) (path : String) : Option String :=
  get_gitmodules_config f path "upstreamtype"

/-- Source method upstream_url: read submodule.<path>.upstreamurl. -/
def upstream_url (f : GFile) (path : String) : Option String :=
  get_gitmodules_config f path "upstreamurl"

/-- Source method revision: read submodule.<path>.revision. -/
def revision (f : GFile) (path : String) : Option String :=
  get_gitmodules_config f path "revision"

/-- Source method set_upstream_type: write submodule.<path>.upstreamtype. -/
def set_upstream_type (f : GFile) (path ty : String) : GFile :=
  set_gitmodules_config f path "upstreamtype" ty

/-- Source method set_upstream_url: write submodule.<path>.upstreamurl. -/
def set_upstream_url (f : GFile) (path url : String) : GFile :=
  set_gitmodules_config f path "upstreamurl" url

/-- Source method set_revision: write submodule.<path>.revision. -/
def set_revision (f : GFile) (path rev : String) : GFile :=
  set_gitmodules_config f path "revision" rev

/- Lemmas for the configuration operations. -/

theorem getFirst_setFirst_same (es : List (String × String)) (k v : String) :
    getFirst (setFirst es k v) k = some v := by
  induction es with
  | nil => simp [setFirst, getFirst]
  | cons e es ih =>
    by_cases h : e.1 = k
    · simp [setFirst, getFirst, h]
    · simp [setFirst, getFirst, h, ih]

theorem getFirst_setFirst_other (es : List (String × String)) (k v k2 : String)
    (h : k2 ≠ k) : getFirst (setFirst es k v) k2 = getFirst es k2 := by
  induction es with
  | nil => simp [setFirst, getFirst, Ne.symm h]
  | cons e es ih =>
    by_cases he : e.1 = k
    · simp only [setFirst, if_pos he, getFirst, he]
      rw [if_neg (Ne.symm h), if_neg (Ne.symm h)]
    · simp only [setFirst, if_neg he, getFirst]
      by_cases he2 : e.1 = k2
      · simp [he2]
      · simp [he2, ih]

theorem sGet_sSet_same (f : GFile) (sec k v : String) :
    sGet (sSet f sec k v) sec k = some v := by
  induction f with
  | nil => simp [sSet, sGet, getFirst]
  | cons s f ih =>
    by_cases h : s.name = sec
    · simp [sSet, sGet, h, getFirst_setFirst_same]
    · simp [sSet, sGet, h, ih]

theorem sGet_sSet_other_key (f : GFile) (sec k v k2 : String) (h : k2 ≠ k) :
    sGet (sSet f sec k v) sec k2 = sGet f sec k2 := by
  induction f with
  | nil => simp [sSet, sGet, getFirst, Ne.symm h]
  | cons s f ih =>
    by_cases hs : s.name = sec
    · simp [sSet, sGet, hs, getFirst_setFirst_other _ _ _ _ h]
    · simp [sSet, sGet, hs, ih]

theorem sGet_sSet_other_section (f : GFile) (sec k v sec2 k2 : String)
    (h : sec2 ≠ sec) : sGet (sSet f sec k v) sec2 k2 = sGet f sec2 k2 := by
  induction f with
  | nil => simp [sSet, sGet, getFirst, Ne.symm h]
  | cons s f ih =>
    by_cases hs : s.name = sec
    · simp only [sSet, if_pos hs, sGet]
      rw [if_neg (Ne.symm h), if_neg (by rw [hs]; exact Ne.symm h)]
    · simp [sSet, sGet, hs, ih]

theorem sGet_map_ren_new (f : GFile) (o n k : String)
    (hn : hasSection f n = false) :
    sGet (f.map (renSec o n)) n k = sGet f o k := by
  induction f with
  | nil => simp [sGet]
  | cons s f ih =>
    have hsn : s.name ≠ n := by
      intro hh
      simp [hasSection, hh] at hn
    have htail : hasSection f n = false := by
      simp [hasSection] at hn ⊢
      exact fun x hx => hn.2 x hx
    by_cases hs : s.name = o
    · simp [renSec, hs, sGet]
    · simp [renSec, hs, sGet, hsn, ih htail]

theorem sGet_map_ren_other (f : GFile) (o n k sec : String)
    (ho : sec ≠ o) (hn : sec ≠ n) :
    sGet (f.map (renSec o n)) sec k = sGet f sec k := by
  induction f with
  | nil => simp [sGet]
  | cons s f ih =>
    by_cases hs : s.name = o
    · simp only [List.map_cons, renSec, if_pos hs, sGet]
      rw [if_neg (Ne.symm hn), if_neg (by rw [hs]; exact Ne.symm ho), ih]
    · simp only [List.map_cons, renSec, if_neg hs, sGet]
      by_cases hsec : s.name = sec
      · simp [hsec]
      · simp [hsec, ih]

theorem sRenameSection_of_hasSection (f : GFile) (o n : String)
    (h : hasSection f o = true) :
    sRenameSection f o n = some (f.map (renSec o n)) := by
  simp [sRenameSection, h]

theorem sRemoveSection_of_hasSection (f : GFile) (sec : String)
    (h : hasSection f sec = true) :
    sRemoveSection f sec = some (f.filter (fun s => s.name ≠ sec)) := by
  simp [sRemoveSection, h]

theorem sGet_filter_ne (f : GFile) (sec k rm : String) (h : sec ≠ rm) :
    sGet (f.filter (fun s => s.name ≠ rm)) sec k = sGet f sec k := by
  induction f with
  | nil => simp
  | cons s f ih =>
    rw [List.filter_cons]
    by_cases hs : s.name = rm
    · rw [if_neg (by simp [hs])]
      rw [ih]
      have hns : s.name ≠ sec := by rw [hs]; exact Ne.symm h
      simp only [sGet, if_neg hns]
    · rw [if_pos (by simp [hs])]
      simp only [sGet]
      by_cases hsec : s.name = sec
      · rw [if_pos hsec, if_pos hsec]
      · rw [if_neg hsec, if_neg hsec, ih]

theorem hasSection_filter_ne (f : GFile) (sec rm : String) (h : sec ≠ rm) :
    hasSection (f.filter (fun s => s.name ≠ rm)) sec = hasSection f sec := by
  induction f with
  | nil => simp
  | cons s f ih =>
    rw [List.filter_cons]
    by_cases hs : s.name = rm
    · rw [if_neg (by simp [hs])]
      rw [ih]
      have hns : s.name ≠ sec := by rw [hs]; exact Ne.symm h
      simp [hasSection, hns]
    · rw [if_pos (by simp [hs])]
      simp only [hasSection, List.any_cons]
      rw [show (List.filter (fun s => decide (s.name ≠ rm)) f).any
            (fun s => decide (s.name = sec))
          = f.any (fun s => decide (s.name = sec)) from ih]

theorem mem_list_submodules_iff_hasSection (f : GFile) (m : String) :
    m ∈ list_submodules f ↔ hasSection f m = true := by
  induction f with
  | nil => simp [list_submodules, hasSection]
  | cons s f ih =>
    simp only [list_submodules, List.map_cons, List.mem_cons, hasSection,
      List.any_cons, Bool.or_eq_true, decide_eq_true_eq] at ih ⊢
    constructor
    · rintro (h1 | h2)
      · exact Or.inl h1.symm
      · exact Or.inr (ih.mp h2)
    · rintro (h1 | h2)
      · exact Or.inl h1.symm
      · exact Or.inr (ih.mpr h2)

/-- Claim C7: writing the metadata triple with set_upstream_type,
set_upstream_url and set_revision and reading it back with upstream_type,
upstream_url and revision returns exactly the triple that was written, for
every starting file and path. -/
theorem set_get_metadata_roundtrip (f : GFile) (p ty u r : String) :
    upstream_type (set_revision (set_upstream_url (set_upstream_type f p ty) p u) p r) p
        = some ty ∧
    upstream_url (set_revision (set_upstream_url (set_upstream_type f p ty) p u) p r) p
        = some u ∧
    revision (set_revision (set_upstream_url (set_upstream_type f p ty) p u) p r) p
        = some r := by
  unfold upstream_type upstream_url revision
  unfold set_revision set_upstream_url set_upstream_type
  unfold get_gitmodules_config set_gitmodules_config
  refine ⟨?_, ?_, ?_⟩
  · rw [sGet_sSet_other_key _ _ _ _ _ (by decide),
        sGet_sSet_other_key _ _ _ _ _ (by decide),
        sGet_sSet_same]
  · rw [sGet_sSet_other_key _ _ _ _ _ (by decide), sGet_sSet_same]
  · rw [sGet_sSet_same]

/- ===================================================================
   Repository state and the lifecycle operations

   The state abstracts the parts of the repository the lifecycle methods
   observe and mutate: the index's gitlink entries (registry, one entry
   per registered submodule path, cf. the is_submodule model above), the
   submodule sections of the internal configuration (.git/config), the
   .gitmodules file at its canonical location, and the set of working-tree
   directories.  Staging (git add of .gitmodules) changes no modelled
   observable and is not tracked.  A method that raises is modelled with
   Option: partially applied external effects before the raise are not
   tracked (none of the claims below concerns them).
   =================================================================== -/

structure RepoState where
  registry : List String
  gitconfig : GFile
  gitmodules : GFile
  worktree : List String
deriving DecidableEq

/-- The submodule-registration check used by the lifecycle methods: in this
abstract state a path is a submodule iff the index holds a gitlink entry for
it (cf. the character-level is_submodule model proved in claim C5). -/
def reg_is_submodule (s : RepoState) (p : String) : Bool :=
  decide (p ∈ s.registry)

/-- Source method mv_submodule: assert old is a submodule, rename the config
section in the internal config and in .gitmodules, point the path key of the
new section at the new path, drop the old index entry (git rm --cached),
rename the working-tree directory, and register the new path (git add of a
directory that is itself a git repository creates a gitlink entry). -/
def mv_submodule (s : RepoState) (old new : String) : Option RepoState :=
  if reg_is_submodule s old then
    match sRenameSection s.gitconfig old new, sRenameSection s.gitmodules old new with
    | some gc, some gm =>
      if decide (old ∈ s.worktree) then
        some { registry := (s.registry.erase old) ++ [new]
             , gitconfig := gc
             , gitmodules := sSet gm new "path" new
             , worktree := (s.worktree.erase old) ++ [new] }
      else none
    | _, _ => none
  else none

/-- Source method rm_submodule: assert old is a submodule, remove its section
from the internal config and from .gitmodules, and drop its index entry; the
working-tree directory is left in place. -/
def rm_submodule (s : RepoState) (old : String) : Option RepoState :=
  if reg_is_submodule s old then
    match sRemoveSection s.gitconfig old, sRemoveSection s.gitmodules old with
    | some gc, some gm =>
      some { registry := s.registry.erase old
           , gitconfig := gc
           , gitmodules := gm
           , worktree := s.worktree }
    | _, _ => none
  else none

/-- Source method add_submodule: run git submodule add url path (which fails
if the path is already tracked or its working-tree directory exists, and on
success clones into the directory, stages a gitlink entry and writes the path
and url keys of the new .gitmodules section), then write the three upstream
metadata keys via set_upstream_url, set_upstream_type and set_revision. -/
def add_submodule (s : RepoState) (path url upstreamurl ty rev : String) :
    Option RepoState :=
  if reg_is_submodule s path || decide (path ∈ s.worktree) then none
  else
    some { registry := s.registry ++ [path]
         , gitconfig := s.gitconfig
         , gitmodules :=
             set_revision
               (set_upstream_type
                 (set_upstream_url
                   (sSet (sSet s.gitmodules path "path" path) path "url" url)
                   path upstreamurl)
                 path ty)
               path rev
         , worktree := s.worktree ++ [path] }

/-- Claim C6: for a registered submodule old and a fresh path new, after
mv_submodule the old path is no longer a submodule, the new path is one, the
upstream metadata stored under the new section equals verbatim the metadata
stored under the old section before the move (in both the internal config and
.gitmodules), and only the path field value and the section name change; all
other sections are untouched. -/
theorem mv_submodule_moves_and_preserves_metadata
    (s : RepoState) (old new : String)
    (hreg : old ∈ s.registry) (hwt : old ∈ s.worktree)
    (hne : old ≠ new)
    (hnodup : s.registry.Nodup)
    (hgc : hasSection s.gitconfig old = true)
    (hgm : hasSection s.gitmodules old = true)
    (hfresh_gc : hasSection s.gitconfig new = false)
    (hfresh_gm : hasSection s.gitmodules new = false) :
    ∃ s2, mv_submodule s old new = some s2 ∧
      reg_is_submodule s2 old = false ∧
      reg_is_submodule s2 new = true ∧
      sGet s2.gitmodules new "path" = some new ∧
      (∀ k, k ≠ "path" → sGet s2.gitmodules new k = sGet s.gitmodules old k) ∧
      (∀ k, sGet s2.gitconfig new k = sGet s.gitconfig old k) ∧
      (∀ sec, sec ≠ old → sec ≠ new →
        (∀ k, sGet s2.gitmodules sec k = sGet s.gitmodules sec k) ∧
        (∀ k, sGet s2.gitconfig sec k = sGet s.gitconfig sec k)) := by
  have hsub : reg_is_submodule s old = true := by
    simp [reg_is_submodule, hreg]
  have hwtc : decide (old ∈ s.worktree) = true := by
    simp [hwt]
  have hmv : mv_submodule s old new = some
      { registry := (s.registry.erase old) ++ [new]
      , gitconfig := s.gitconfig.map (renSec old new)
      , gitmodules := sSet (s.gitmodules.map (renSec old new)) new "path" new
      , worktree := (s.worktree.erase old) ++ [new] } := by
    unfold mv_submodule
    rw [if_pos hsub, sRenameSection_of_hasSection _ _ _ hgc,
        sRenameSection_of_hasSection _ _ _ hgm]
    simp only [if_pos hwtc]
  refine ⟨_, hmv, ?_, ?_, ?_, ?_, ?_, ?_⟩
  · simp only [reg_is_submodule, decide_eq_true_eq, decide_eq_false_iff_not]
    intro hmem
    rcases List.mem_append.mp hmem with hmem | hmem
    · exact absurd hmem (by
        rw [List.Nodup.mem_erase_iff hnodup]
        simp)
    · simp at hmem
      exact hne hmem
  · simp [reg_is_submodule]
  · exact sGet_sSet_same _ _ _ _
  · intro k hk
    rw [sGet_sSet_other_key _ _ _ _ _ hk, sGet_map_ren_new _ _ _ _ hfresh_gm]
  · intro k
    exact sGet_map_ren_new _ _ _ _ hfresh_gc
  · intro sec hso hsn
    constructor
    · intro k
      rw [sGet_sSet_other_section _ _ _ _ _ _ hsn,
          sGet_map_ren_other _ _ _ _ _ hso hsn]
    · intro k
      exact sGet_map_ren_other _ _ _ _ _ hso hsn

/-- A concrete repository state for exercising mv_submodule: one registered
submodule libs/foo with populated metadata. -/
def mvDemoState : RepoState :=
  { registry := ["libs/foo"]
  , gitconfig := [⟨"libs/foo", [("url", "u0")]⟩]
  , gitmodules := [⟨"libs/foo",
      [("path", "libs/foo"), ("url", "u0"), ("upstreamtype", "git"),
       ("upstreamurl", "uu0"), ("revision", "master")]⟩]
  , worktree := ["libs/foo"] }

/-- Concrete instantiation of the mv_submodule theorem at the state above,
discharging every hypothesis by evaluation. -/
theorem mv_submodule_moves_and_preserves_metadata_witness :
    ("libs/foo" ∈ mvDemoState.registry ∧ "libs/foo" ∈ mvDemoState.worktree ∧
      "libs/foo" ≠ "vendor/foo" ∧ mvDemoState.registry.Nodup ∧
      hasSection mvDemoState.gitconfig "libs/foo" = true ∧
      hasSection mvDemoState.gitmodules "libs/foo" = true ∧
      hasSection mvDemoState.gitconfig "vendor/foo" = false ∧
      hasSection mvDemoState.gitmodules "vendor/foo" = false) ∧
    (∃ s2, mv_submodule mvDemoState "libs/foo" "vendor/foo" = some s2 ∧
      reg_is_submodule s2 "libs/foo" = false ∧
      reg_is_submodule s2 "vendor/foo" = true ∧
      sGet s2.gitmodules "vendor/foo" "path" = some "vendor/foo" ∧
      (∀ k, k ≠ "path" →
        sGet s2.gitmodules "vendor/foo" k = sGet mvDemoState.gitmodules "libs/foo" k) ∧
      (∀ k, sGet s2.gitconfig "vendor/foo" k = sGet mvDemoState.gitconfig "libs/foo" k) ∧
      (∀ sec, sec ≠ "libs/foo" → sec ≠ "vendor/foo" →
        (∀ k, sGet s2.gitmodules sec k = sGet mvDemoState.gitmodules sec k) ∧
        (∀ k, sGet s2.gitconfig sec k = sGet mvDemoState.gitconfig sec k))) :=
  ⟨by decide,
    mv_submodule_moves_and_preserves_metadata mvDemoState "libs/foo" "vendor/foo"
      (by decide) (by decide) (by decide) (by decide) (by decide) (by decide)
      (by decide) (by decide)⟩

/- ===================================================================
   sync_gitmodules (claims C1, C2, C3)

   Source steps: (1) move the working-tree .gitmodules aside to a fresh
   temporary file in the repository directory; (2) git checkout --
   .gitmodules restores the tracked version at the canonical location;
   (3) list_submodules() reads the canonical (restored) file and
   list_submodules(tmpfile) reads the temporary copy; (4) set differences
   give the removed and added module names; (5) rm_submodule for each
   removed; (6) for each added, read the path/url/upstreamurl/upstreamtype/
   revision keys from the temporary file and add_submodule; (7) rename the
   temporary file back over the canonical .gitmodules and stage it.

   The Python code iterates the difference sets in unspecified hash order;
   the model fixes the declaration order of the respective source file.  A
   raised exception anywhere (a failed config read, git config exit,
   git submodule add failure) propagates out of sync_gitmodules with no
   cleanup handler; the model records the resulting on-disk situation in
   SyncOut, in particular whether the temporary file is still present.
   An event log records each file consulted.
   =================================================================== -/

/-- Which on-disk file of the declarative pair an access targets. -/
inductive FileId
  | canonical
  | temp
deriving DecidableEq

/-- Observable events of a sync_gitmodules run. -/
inductive SyncEvent
  | listDeclared (f : FileId)
  | readField (f : FileId) (module key : String)
  | rmModule (m : String)
  | addModule (path url upstreamurl ty rev : String)
deriving DecidableEq

/-- True for a field read against the canonical file. -/
def SyncEvent.isCanonicalRead : SyncEvent → Bool
  | .readField .canonical _ _ => true
  | _ => false

/-- Input state of sync_gitmodules. -/
structure SyncIn where
  worktreeGitmodules : GFile
  indexGitmodules : GFile
  registry : List String
  gitconfig : GFile
  worktree : List String
deriving DecidableEq

/-- Output state of sync_gitmodules: the contents now at the canonical
.gitmodules location and at the temporary path (none = file absent), the
updated registry and internal config, the event log, and whether the run
raised. -/
structure SyncOut where
  canonicalGitmodules : Option GFile
  tempGitmodules : Option GFile
  registry : List String
  gitconfig : GFile
  worktree : List String
  events : List SyncEvent
  failed : Bool
deriving DecidableEq

/-- Step 5 of sync_gitmodules: remove each stale module in turn; a raise
stops the loop. -/
def syncRemove : RepoState → List String → RepoState × List SyncEvent × Bool
  | s, [] => (s, [], false)
  | s, m :: rest =>
    match rm_submodule s m with
    | none => (s, [], true)
    | some s2 =>
      let r := syncRemove s2 rest
      (r.1, SyncEvent.rmModule m :: r.2.1, r.2.2)

/-- Step 6's per-module field reads, all against the temporary file: the
source reads path, url, upstreamurl, upstreamtype and revision with
config --file=<tmpfile>; a missing key makes git config exit nonzero and the
read raise.  Returns the values and the reads attempted. -/
def readNewFields (tmp : GFile) (m : String) :
    Option (String × String × String × String × String) × List SyncEvent :=
  match sGet tmp m "path" with
  | none => (none, [SyncEvent.readField .temp m "path"])
  | some path =>
    match sGet tmp m "url" with
    | none => (none, [SyncEvent.readField .temp m "path", SyncEvent.readField .temp m "url"])
    | some url =>
      match sGet tmp m "upstreamurl" with
      | none => (none, [SyncEvent.readField .temp m "path", SyncEvent.readField .temp m "url",
          SyncEvent.readField .temp m "upstreamurl"])
      | some uu =>
        match sGet tmp m "upstreamtype" with
        | none => (none, [SyncEvent.readField .temp m "path", SyncEvent.readField .temp m "url",
            SyncEvent.readField .temp m "upstreamurl", SyncEvent.readField .temp m "upstreamtype"])
        | some ty =>
          match sGet tmp m "revision" with
          | none => (none, [SyncEvent.readField .temp m "path", SyncEvent.readField .temp m "url",
              SyncEvent.readField .temp m "upstreamurl", SyncEvent.readField .temp m "upstreamtype",
              SyncEvent.readField .temp m "revision"])
          | some rev =>
            (some (path, url, uu, ty, rev),
             [SyncEvent.readField .temp m "path", SyncEvent.readField .temp m "url",
              SyncEvent.readField .temp m "upstreamurl", SyncEvent.readField .temp m "upstreamtype",
              SyncEvent.readField .temp m "revision"])

/-- Step 6 of sync_gitmodules: for each new module, read its declared fields
from the temporary file and add it; a raise stops the loop. -/
def syncAdd (tmp : GFile) : RepoState → List String → RepoState × List SyncEvent × Bool
  | s, [] => (s, [], false)
  | s, m :: rest =>
    match (readNewFields tmp m).1 with
    | none => (s, (readNewFields tmp m).2, true)
    | some (path, url, uu, ty, rev) =>
      match add_submodule s path url uu ty rev with
      | none => (s, (readNewFields tmp m).2, true)
      | some s2 =>
        let r := syncAdd tmp s2 rest
        (r.1, (readNewFields tmp m).2 ++ SyncEvent.addModule path url uu ty rev :: r.2.1, r.2.2)

/-- Source method sync_gitmodules, start to finish. -/
def sync_gitmodules (inp : SyncIn) : SyncOut :=
  let tmp := inp.worktreeGitmodules
  let restored := inp.indexGitmodules
  let previous := list_submodules restored
  let current := list_submodules tmp
  let evs0 := [SyncEvent.listDeclared FileId.canonical, SyncEvent.listDeclared FileId.temp]
  let old_submodules := previous.filter (fun m => decide (m ∉ current))
  let new_submodules := current.filter (fun m => decide (m ∉ previous))
  let s0 : RepoState :=
    { registry := inp.registry, gitconfig := inp.gitconfig
    , gitmodules := restored, worktree := inp.worktree }
  let r1 := syncRemove s0 old_submodules
  if r1.2.2 then
    { canonicalGitmodules := some r1.1.gitmodules, tempGitmodules := some tmp
    , registry := r1.1.registry, gitconfig := r1.1.gitconfig
    , worktree := r1.1.worktree
    , events := evs0 ++ r1.2.1, failed := true }
  else
    let r2 := syncAdd tmp r1.1 new_submodules
    if r2.2.2 then
      { canonicalGitmodules := some r2.1.gitmodules, tempGitmodules := some tmp
      , registry := r2.1.registry, gitconfig := r2.1.gitconfig
      , worktree := r2.1.worktree
      , events := evs0 ++ r1.2.1 ++ r2.2.1, failed := true }
    else
      { canonicalGitmodules := some tmp, tempGitmodules := none
      , registry := r2.1.registry, gitconfig := r2.1.gitconfig
      , worktree := r2.1.worktree
      , events := evs0 ++ r1.2.1 ++ r2.2.1, failed := false }

theorem syncRemove_ok (ms : List String) (s : RepoState)
    (hnr : s.registry.Nodup) (hnm : ms.Nodup)
    (hpre : ∀ m ∈ ms, m ∈ s.registry ∧ hasSection s.gitconfig m = true ∧
        hasSection s.gitmodules m = true) :
    (syncRemove s ms).2.2 = false ∧
    (∀ p, p ∈ (syncRemove s ms).1.registry ↔ p ∈ s.registry ∧ p ∉ ms) ∧
    (syncRemove s ms).1.registry.Nodup ∧
    (∀ sec, sec ∉ ms → ∀ k,
        sGet (syncRemove s ms).1.gitconfig sec k = sGet s.gitconfig sec k) ∧
    (syncRemove s ms).1.worktree = s.worktree ∧
    (syncRemove s ms).2.1 = ms.map SyncEvent.rmModule := by
  induction ms generalizing s with
  | nil =>
    refine ⟨rfl, ?_, hnr, ?_, rfl, rfl⟩
    · intro p; simp [syncRemove]
    · intro sec hsec k; rfl
  | cons m rest ih =>
    obtain ⟨hm, hgc, hgm⟩ := hpre m (by simp)
    have hmrest : m ∉ rest := (List.nodup_cons.mp hnm).1
    have hnrest : rest.Nodup := (List.nodup_cons.mp hnm).2
    have hrm : rm_submodule s m = some
        { registry := s.registry.erase m
        , gitconfig := s.gitconfig.filter (fun x => x.name ≠ m)
        , gitmodules := s.gitmodules.filter (fun x => x.name ≠ m)
        , worktree := s.worktree } := by
      unfold rm_submodule
      rw [if_pos (by simp [reg_is_submodule, hm]),
          sRemoveSection_of_hasSection _ _ hgc,
          sRemoveSection_of_hasSection _ _ hgm]
    have hpre2 : ∀ x ∈ rest, x ∈ (s.registry.erase m) ∧
        hasSection (s.gitconfig.filter (fun s => s.name ≠ m)) x = true ∧
        hasSection (s.gitmodules.filter (fun s => s.name ≠ m)) x = true := by
      intro x hx
      have hxm : x ≠ m := fun hh => hmrest (hh ▸ hx)
      obtain ⟨hx1, hx2, hx3⟩ := hpre x (by simp [hx])
      refine ⟨?_, ?_, ?_⟩
      · rw [List.Nodup.mem_erase_iff hnr]; exact ⟨hxm, hx1⟩
      · rw [hasSection_filter_ne _ _ _ hxm]; exact hx2
      · rw [hasSection_filter_ne _ _ _ hxm]; exact hx3
    obtain ⟨ih1, ih2, ih3, ih4, ih5, ih6⟩ :=
      ih { registry := s.registry.erase m
         , gitconfig := s.gitconfig.filter (fun x => x.name ≠ m)
         , gitmodules := s.gitmodules.filter (fun x => x.name ≠ m)
         , worktree := s.worktree }
        (List.Nodup.erase m hnr) hnrest hpre2
    have hunf : syncRemove s (m :: rest) =
        ((syncRemove
            { registry := s.registry.erase m
            , gitconfig := s.gitconfig.filter (fun x => x.name ≠ m)
            , gitmodules := s.gitmodules.filter (fun x => x.name ≠ m)
            , worktree := s.worktree } rest).1,
         SyncEvent.rmModule m :: (syncRemove
            { registry := s.registry.erase m
            , gitconfig := s.gitconfig.filter (fun x => x.name ≠ m)
            , gitmodules := s.gitmodules.filter (fun x => x.name ≠ m)
            , worktree := s.worktree } rest).2.1,
         (syncRemove
            { registry := s.registry.erase m
            , gitconfig := s.gitconfig.filter (fun x => x.name ≠ m)
            , gitmodules := s.gitmodules.filter (fun x => x.name ≠ m)
            , worktree := s.worktree } rest).2.2) := by
      simp only [syncRemove, hrm]
    rw [hunf]
    refine ⟨ih1, ?_, ih3, ?_, ih5, ?_⟩
    · intro p
      rw [ih2 p, List.Nodup.mem_erase_iff hnr]
      simp only [List.mem_cons]
      constructor
      · rintro ⟨⟨hpm, hpr⟩, hpc⟩
        exact ⟨hpr, by rintro (h1 | h2) <;> [exact hpm h1; exact hpc h2]⟩
      · rintro ⟨hpr, hnc⟩
        exact ⟨⟨fun hh => hnc (Or.inl hh), hpr⟩, fun hh => hnc (Or.inr hh)⟩
    · intro sec hsec k
      have hsm : sec ≠ m := fun hh => hsec (by simp [hh])
      have hsr : sec ∉ rest := fun hh => hsec (by simp [hh])
      rw [ih4 sec hsr k, sGet_filter_ne _ _ _ _ hsm]
    · rw [ih6]; rfl

theorem syncAdd_ok (ps : List String) (tmp : GFile) (s : RepoState)
    (hnp : ps.Nodup)
    (hpre : ∀ p ∈ ps, sGet tmp p "path" = some p ∧
        (sGet tmp p "url").isSome = true ∧
        (sGet tmp p "upstreamurl").isSome = true ∧
        (sGet tmp p "upstreamtype").isSome = true ∧
        (sGet tmp p "revision").isSome = true ∧
        p ∉ s.registry ∧ p ∉ s.worktree) :
    (syncAdd tmp s ps).2.2 = false ∧
    (∀ x, x ∈ (syncAdd tmp s ps).1.registry ↔ x ∈ s.registry ∨ x ∈ ps) ∧
    (syncAdd tmp s ps).1.gitconfig = s.gitconfig ∧
    (∀ m, SyncEvent.rmModule m ∉ (syncAdd tmp s ps).2.1) ∧
    (∀ p u uu ty rv, SyncEvent.addModule p u uu ty rv ∈ (syncAdd tmp s ps).2.1 → p ∈ ps) ∧
    (∀ p ∈ ps, ∃ u uu ty rv, SyncEvent.addModule p u uu ty rv ∈ (syncAdd tmp s ps).2.1) ∧
    (∀ p ∈ ps, SyncEvent.readField FileId.temp p "url" ∈ (syncAdd tmp s ps).2.1) ∧
    (∀ e ∈ (syncAdd tmp s ps).2.1, e.isCanonicalRead = false) := by
  induction ps generalizing s with
  | nil =>
    refine ⟨rfl, ?_, rfl, ?_, ?_, ?_, ?_, ?_⟩ <;> simp [syncAdd]
  | cons p rest ih =>
    obtain ⟨hpath, hurl, huu, hty, hrev, hreg, hwt⟩ := hpre p (by simp)
    obtain ⟨u, hu⟩ := Option.isSome_iff_exists.mp hurl
    obtain ⟨uu, huu2⟩ := Option.isSome_iff_exists.mp huu
    obtain ⟨ty, hty2⟩ := Option.isSome_iff_exists.mp hty
    obtain ⟨rv, hrv⟩ := Option.isSome_iff_exists.mp hrev
    have hprest : p ∉ rest := (List.nodup_cons.mp hnp).1
    have hnrest : rest.Nodup := (List.nodup_cons.mp hnp).2
    have hread : readNewFields tmp p =
        (some (p, u, uu, ty, rv),
         [SyncEvent.readField FileId.temp p "path", SyncEvent.readField FileId.temp p "url",
          SyncEvent.readField FileId.temp p "upstreamurl",
          SyncEvent.readField FileId.temp p "upstreamtype",
          SyncEvent.readField FileId.temp p "revision"]) := by
      unfold readNewFields
      rw [hpath, hu, huu2, hty2, hrv]
    have hadd : add_submodule s p u uu ty rv = some
        { registry := s.registry ++ [p]
        , gitconfig := s.gitconfig
        , gitmodules :=
            set_revision
              (set_upstream_type
                (set_upstream_url
                  (sSet (sSet s.gitmodules p "path" p) p "url" u)
                  p uu)
                p ty)
              p rv
        , worktree := s.worktree ++ [p] } := by
      unfold add_submodule
      rw [if_neg]
      simp only [Bool.or_eq_true, not_or, reg_is_submodule, decide_eq_true_eq]
      exact ⟨by simpa using hreg, by simpa using hwt⟩
    set s2 : RepoState :=
      { registry := s.registry ++ [p]
      , gitconfig := s.gitconfig
      , gitmodules :=
          set_revision
            (set_upstream_type
              (set_upstream_url
                (sSet (sSet s.gitmodules p "path" p) p "url" u)
                p uu)
              p ty)
            p rv
      , worktree := s.worktree ++ [p] } with hs2
    have hpre2 : ∀ q ∈ rest, sGet tmp q "path" = some q ∧
        (sGet tmp q "url").isSome = true ∧
        (sGet tmp q "upstreamurl").isSome = true ∧
        (sGet tmp q "upstreamtype").isSome = true ∧
        (sGet tmp q "revision").isSome = true ∧
        q ∉ s2.registry ∧ q ∉ s2.worktree := by
      intro q hq
      have hqp : q ≠ p := fun hh => hprest (hh ▸ hq)
      obtain ⟨h1, h2, h3, h4, h5, h6, h7⟩ := hpre q (by simp [hq])
      refine ⟨h1, h2, h3, h4, h5, ?_, ?_⟩
      · rw [hs2]; simp [hqp, h6]
      · rw [hs2]; simp [hqp, h7]
    obtain ⟨ih1, ih2, ih3, ih4, ih5, ih6, ih7, ih8⟩ := ih s2 hnrest hpre2
    have hunf : syncAdd tmp s (p :: rest) =
        ((syncAdd tmp s2 rest).1,
         (readNewFields tmp p).2 ++
           SyncEvent.addModule p u uu ty rv :: (syncAdd tmp s2 rest).2.1,
         (syncAdd tmp s2 rest).2.2) := by
      conv_lhs => rw [syncAdd]
      rw [hread]
      simp only [hadd, hs2]
    rw [hunf]
    simp only [hread]
    refine ⟨ih1, ?_, ih3, ?_, ?_, ?_, ?_, ?_⟩
    · intro x
      rw [ih2 x, hs2]
      simp only [List.mem_append, List.mem_cons, List.mem_singleton]
      tauto
    · intro m
      simp only [List.mem_append, List.mem_cons]
      rintro (hmem | hmem | hmem)
      · simp at hmem
      · exact absurd hmem (by simp)
      · exact ih4 m hmem
    · intro q qu quu qty qrv
      simp only [List.mem_append, List.mem_cons]
      rintro (hmem | hmem | hmem)
      · simp at hmem
      · obtain ⟨rfl, -⟩ := by simpa using hmem
        simp
      · exact Or.inr (ih5 q qu quu qty qrv hmem)
    · intro q hq
      rcases List.mem_cons.mp hq with rfl | hq2
      · exact ⟨u, uu, ty, rv, by simp⟩
      · obtain ⟨qu, quu, qty, qrv, hmem⟩ := ih6 q hq2
        exact ⟨qu, quu, qty, qrv, by simp [hmem]⟩
    · intro q hq
      rcases List.mem_cons.mp hq with rfl | hq2
      · simp
      · have := ih7 q hq2
        simp [this]
    · intro e he
      rcases List.mem_append.mp he with he2 | he2
      · rcases List.mem_cons.mp he2 with rfl | he3
        · rfl
        · simp only [List.mem_cons, List.mem_singleton] at he3
          rcases he3 with rfl | rfl | rfl | rfl | he4
          · rfl
          · rfl
          · rfl
          · rfl
          · simp at he4
      · rcases List.mem_cons.mp he2 with rfl | he3
        · rfl
        · exact ih8 e he3

theorem sync_gitmodules_run (inp : SyncIn)
    (hnr : inp.registry.Nodup)
    (hprevn : (list_submodules inp.indexGitmodules).Nodup)
    (hcurn : (list_submodules inp.worktreeGitmodules).Nodup)
    (hreg1 : ∀ p ∈ inp.registry, p ∈ list_submodules inp.indexGitmodules)
    (hreg2 : ∀ p ∈ list_submodules inp.indexGitmodules, p ∈ inp.registry)
    (hgc : ∀ m ∈ list_submodules inp.indexGitmodules,
        m ∉ list_submodules inp.worktreeGitmodules → hasSection inp.gitconfig m = true)
    (hnew : ∀ m ∈ list_submodules inp.worktreeGitmodules,
        m ∉ list_submodules inp.indexGitmodules →
        sGet inp.worktreeGitmodules m "path" = some m ∧
        (sGet inp.worktreeGitmodules m "url").isSome = true ∧
        (sGet inp.worktreeGitmodules m "upstreamurl").isSome = true ∧
        (sGet inp.worktreeGitmodules m "upstreamtype").isSome = true ∧
        (sGet inp.worktreeGitmodules m "revision").isSome = true ∧
        m ∉ inp.worktree) :
    (sync_gitmodules inp).failed = false ∧
    (sync_gitmodules inp).tempGitmodules = none ∧
    (sync_gitmodules inp).canonicalGitmodules = some inp.worktreeGitmodules ∧
    (∀ p, p ∈ (sync_gitmodules inp).registry ↔
        p ∈ list_submodules inp.worktreeGitmodules) ∧
    (∀ m ∈ list_submodules inp.worktreeGitmodules,
        m ∈ list_submodules inp.indexGitmodules →
        ∀ k, sGet (sync_gitmodules inp).gitconfig m k = sGet inp.gitconfig m k) ∧
    (∀ e ∈ (sync_gitmodules inp).events, e.isCanonicalRead = false) ∧
    (∀ m, SyncEvent.rmModule m ∈ (sync_gitmodules inp).events ↔
        (m ∈ list_submodules inp.indexGitmodules ∧
         m ∉ list_submodules inp.worktreeGitmodules)) ∧
    (∀ p u uu ty rv, SyncEvent.addModule p u uu ty rv ∈ (sync_gitmodules inp).events →
        p ∈ list_submodules inp.worktreeGitmodules ∧
        p ∉ list_submodules inp.indexGitmodules) ∧
    (∀ p ∈ list_submodules inp.worktreeGitmodules,
        p ∉ list_submodules inp.indexGitmodules →
        (∃ u uu ty rv, SyncEvent.addModule p u uu ty rv ∈ (sync_gitmodules inp).events) ∧
        SyncEvent.readField FileId.temp p "url" ∈ (sync_gitmodules inp).events) := by
  have holdsmem : ∀ x, x ∈ (list_submodules inp.indexGitmodules).filter
      (fun m => decide (m ∉ list_submodules inp.worktreeGitmodules)) ↔
      (x ∈ list_submodules inp.indexGitmodules ∧
       x ∉ list_submodules inp.worktreeGitmodules) := by
    intro x
    rw [List.mem_filter]
    simp
  have hnewsmem : ∀ x, x ∈ (list_submodules inp.worktreeGitmodules).filter
      (fun m => decide (m ∉ list_submodules inp.indexGitmodules)) ↔
      (x ∈ list_submodules inp.worktreeGitmodules ∧
       x ∉ list_submodules inp.indexGitmodules) := by
    intro x
    rw [List.mem_filter]
    simp
  obtain ⟨r1, r2, r3, r4, r5, r6⟩ := syncRemove_ok
    ((list_submodules inp.indexGitmodules).filter
      (fun m => decide (m ∉ list_submodules inp.worktreeGitmodules)))
    { registry := inp.registry, gitconfig := inp.gitconfig
    , gitmodules := inp.indexGitmodules, worktree := inp.worktree }
    hnr (List.Nodup.filter _ hprevn)
    (by
      intro m hm
      obtain ⟨hm1, hm2⟩ := (holdsmem m).mp hm
      exact ⟨hreg2 m hm1, hgc m hm1 hm2,
        (mem_list_submodules_iff_hasSection _ _).mp hm1⟩)
  obtain ⟨a1, a2, a3, a4, a5, a6, a7, a8⟩ := syncAdd_ok
    ((list_submodules inp.worktreeGitmodules).filter
      (fun m => decide (m ∉ list_submodules inp.indexGitmodules)))
    inp.worktreeGitmodules
    (syncRemove
      { registry := inp.registry, gitconfig := inp.gitconfig
      , gitmodules := inp.indexGitmodules, worktree := inp.worktree }
      ((list_submodules inp.indexGitmodules).filter
        (fun m => decide (m ∉ list_submodules inp.worktreeGitmodules)))).1
    (List.Nodup.filter _ hcurn)
    (by
      intro p hp
      obtain ⟨hp1, hp2⟩ := (hnewsmem p).mp hp
      obtain ⟨h1, h2, h3, h4, h5, h6⟩ := hnew p hp1 hp2
      refine ⟨h1, h2, h3, h4, h5, ?_, ?_⟩
      · rw [r2 p]
        rintro ⟨hmem, -⟩
        exact hp2 (hreg1 p hmem)
      · rw [r5]
        exact h6)
  have hfalse1 : ¬((syncRemove
      { registry := inp.registry, gitconfig := inp.gitconfig
      , gitmodules := inp.indexGitmodules, worktree := inp.worktree }
      ((list_submodules inp.indexGitmodules).filter
        (fun m => decide (m ∉ list_submodules inp.worktreeGitmodules)))).2.2 = true) := by
    intro hcontra
    rw [r1] at hcontra
    exact Bool.false_ne_true hcontra
  have hfalse2 : ¬((syncAdd inp.worktreeGitmodules
      (syncRemove
        { registry := inp.registry, gitconfig := inp.gitconfig
        , gitmodules := inp.indexGitmodules, worktree := inp.worktree }
        ((list_submodules inp.indexGitmodules).filter
          (fun m => decide (m ∉ list_submodules inp.worktreeGitmodules)))).1
      ((list_submodules inp.worktreeGitmodules).filter
        (fun m => decide (m ∉ list_submodules inp.indexGitmodules)))).2.2 = true) := by
    intro hcontra
    rw [a1] at hcontra
    exact Bool.false_ne_true hcontra
  have hsync : sync_gitmodules inp =
      { canonicalGitmodules := some inp.worktreeGitmodules
      , tempGitmodules := none
      , registry := (syncAdd inp.worktreeGitmodules
          (syncRemove
            { registry := inp.registry, gitconfig := inp.gitconfig
            , gitmodules := inp.indexGitmodules, worktree := inp.worktree }
            ((list_submodules inp.indexGitmodules).filter
              (fun m => decide (m ∉ list_submodules inp.worktreeGitmodules)))).1
          ((list_submodules inp.worktreeGitmodules).filter
            (fun m => decide (m ∉ list_submodules inp.indexGitmodules)))).1.registry
      , gitconfig := (syncAdd inp.worktreeGitmodules
          (syncRemove
            { registry := inp.registry, gitconfig := inp.gitconfig
            , gitmodules := inp.indexGitmodules, worktree := inp.worktree }
            ((list_submodules inp.indexGitmodules).filter
              (fun m => decide (m ∉ list_submodules inp.worktreeGitmodules)))).1
          ((list_submodules inp.worktreeGitmodules).filter
            (fun m => decide (m ∉ list_submodules inp.indexGitmodules)))).1.gitconfig
      , worktree := (syncAdd inp.worktreeGitmodules
          (syncRemove
            { registry := inp.registry, gitconfig := inp.gitconfig
            , gitmodules := inp.indexGitmodules, worktree := inp.worktree }
            ((list_submodules inp.indexGitmodules).filter
              (fun m => decide (m ∉ list_submodules inp.worktreeGitmodules)))).1
          ((list_submodules inp.worktreeGitmodules).filter
            (fun m => decide (m ∉ list_submodules inp.indexGitmodules)))).1.worktree
      , events := [SyncEvent.listDeclared FileId.canonical, SyncEvent.listDeclared FileId.temp]
          ++ (syncRemove
            { registry := inp.registry, gitconfig := inp.gitconfig
            , gitmodules := inp.indexGitmodules, worktree := inp.worktree }
            ((list_submodules inp.indexGitmodules).filter
              (fun m => decide (m ∉ list_submodules inp.worktreeGitmodules)))).2.1
          ++ (syncAdd inp.worktreeGitmodules
            (syncRemove
              { registry := inp.registry, gitconfig := inp.gitconfig
              , gitmodules := inp.indexGitmodules, worktree := inp.worktree }
              ((list_submodules inp.indexGitmodules).filter
                (fun m => decide (m ∉ list_submodules inp.worktreeGitmodules)))).1
            ((list_submodules inp.worktreeGitmodules).filter
              (fun m => decide (m ∉ list_submodules inp.indexGitmodules)))).2.1
      , failed := false } := by
    simp only [sync_gitmodules]
    rw [if_neg hfalse1, if_neg hfalse2]
  rw [hsync]
  refine ⟨rfl, rfl, rfl, ?_, ?_, ?_, ?_, ?_, ?_⟩
  · intro p
    simp only []
    rw [a2 p, r2 p]
    constructor
    · rintro (⟨hmem, hnot⟩ | hmem)
      · by_contra hc
        exact hnot ((holdsmem p).mpr ⟨hreg1 p hmem, hc⟩)
      · exact ((hnewsmem p).mp hmem).1
    · intro hc
      by_cases hprev : p ∈ list_submodules inp.indexGitmodules
      · refine Or.inl ⟨hreg2 p hprev, ?_⟩
        intro hmem
        exact ((holdsmem p).mp hmem).2 hc
      · exact Or.inr ((hnewsmem p).mpr ⟨hc, hprev⟩)
  · intro m hmc hmp k
    simp only []
    rw [a3]
    apply r4
    intro hmem
    exact ((holdsmem m).mp hmem).2 hmc
  · intro e he
    simp only [] at he
    rcases List.mem_append.mp he with he2 | he2
    · rcases List.mem_append.mp he2 with he3 | he3
      · rcases List.mem_cons.mp he3 with rfl | he4
        · rfl
        · rcases List.mem_singleton.mp he4 with rfl
          rfl
      · rw [r6] at he3
        obtain ⟨x, -, rfl⟩ := List.mem_map.mp he3
        rfl
    · exact a8 e he2
  · intro m
    simp only []
    constructor
    · intro hmem
      rcases List.mem_append.mp hmem with he2 | he2
      · rcases List.mem_append.mp he2 with he3 | he3
        · simp at he3
        · rw [r6] at he3
          obtain ⟨x, hx, hxe⟩ := List.mem_map.mp he3
          have hxm : x = m := by simpa using hxe
          subst hxm
          exact (holdsmem x).mp hx
      · exact absurd he2 (a4 m)
    · rintro ⟨h1, h2⟩
      apply List.mem_append.mpr
      refine Or.inl (List.mem_append.mpr (Or.inr ?_))
      rw [r6]
      exact List.mem_map.mpr ⟨m, (holdsmem m).mpr ⟨h1, h2⟩, rfl⟩
  · intro p u uu ty rv hmem
    simp only [] at hmem
    rcases List.mem_append.mp hmem with he2 | he2
    · rcases List.mem_append.mp he2 with he3 | he3
      · simp at he3
      · rw [r6] at he3
        obtain ⟨x, -, hxe⟩ := List.mem_map.mp he3
        simp at hxe
    · exact (hnewsmem p).mp (a5 p u uu ty rv he2)
  · intro p hp1 hp2
    have hpnews : p ∈ (list_submodules inp.worktreeGitmodules).filter
        (fun m => decide (m ∉ list_submodules inp.indexGitmodules)) :=
      (hnewsmem p).mpr ⟨hp1, hp2⟩
    constructor
    · obtain ⟨u, uu, ty, rv, hmem⟩ := a6 p hpnews
      exact ⟨u, uu, ty, rv, by
        simp only []
        exact List.mem_append.mpr (Or.inr hmem)⟩
    · simp only []
      exact List.mem_append.mpr (Or.inr (a7 p hpnews))

/-- Claim C1 as amended: during sync_gitmodules the previous set is the one
declared by the canonical newly-restored (tracked) file and the current set
the one declared by the preserved temporary copy (the prior working-tree
file) — the opposite orientation to the claim.  Reconciliation removes every
registered submodule declared only in the previous set, adds every submodule
declared only in the current set, leaves the intersection untouched (their
internal-config metadata unchanged), and afterwards the registered submodule
set equals exactly the set of paths declared in the file then at the
canonical location, which is the temporary copy renamed back. -/
theorem sync_gitmodules_registry_converges (inp : SyncIn)
    (hnr : inp.registry.Nodup)
    (hprevn : (list_submodules inp.indexGitmodules).Nodup)
    (hcurn : (list_submodules inp.worktreeGitmodules).Nodup)
    (hreg1 : ∀ p ∈ inp.registry, p ∈ list_submodules inp.indexGitmodules)
    (hreg2 : ∀ p ∈ list_submodules inp.indexGitmodules, p ∈ inp.registry)
    (hgc : ∀ m ∈ list_submodules inp.indexGitmodules,
        m ∉ list_submodules inp.worktreeGitmodules → hasSection inp.gitconfig m = true)
    (hnew : ∀ m ∈ list_submodules inp.worktreeGitmodules,
        m ∉ list_submodules inp.indexGitmodules →
        sGet inp.worktreeGitmodules m "path" = some m ∧
        (sGet inp.worktreeGitmodules m "url").isSome = true ∧
        (sGet inp.worktreeGitmodules m "upstreamurl").isSome = true ∧
        (sGet inp.worktreeGitmodules m "upstreamtype").isSome = true ∧
        (sGet inp.worktreeGitmodules m "revision").isSome = true ∧
        m ∉ inp.worktree) :
    (sync_gitmodules inp).failed = false ∧
    (sync_gitmodules inp).canonicalGitmodules = some inp.worktreeGitmodules ∧
    (∀ m ∈ list_submodules inp.indexGitmodules,
        m ∉ list_submodules inp.worktreeGitmodules →
        m ∉ (sync_gitmodules inp).registry) ∧
    (∀ m ∈ list_submodules inp.worktreeGitmodules,
        m ∉ list_submodules inp.indexGitmodules →
        m ∈ (sync_gitmodules inp).registry) ∧
    (∀ m ∈ list_submodules inp.worktreeGitmodules,
        m ∈ list_submodules inp.indexGitmodules →
        m ∈ (sync_gitmodules inp).registry ∧
        (∀ k, sGet (sync_gitmodules inp).gitconfig m k = sGet inp.gitconfig m k)) ∧
    (∀ p, p ∈ (sync_gitmodules inp).registry ↔
        p ∈ list_submodules inp.worktreeGitmodules) := by
  obtain ⟨h1, h2, h3, h4, h5, -, -, -, -⟩ :=
    sync_gitmodules_run inp hnr hprevn hcurn hreg1 hreg2 hgc hnew
  refine ⟨h1, h3, ?_, ?_, ?_, h4⟩
  · intro m hmp hmc hmem
    exact hmc ((h4 m).mp hmem)
  · intro m hmc hmp
    exact (h4 m).mpr hmc
  · intro m hmc hmp
    exact ⟨(h4 m).mpr hmc, h5 m hmc hmp⟩

/-- The reconciliation example of the specification: previously tracked
submodules A, B, C; the new declarative file declares B, C, D. -/
def syncDemoIn : SyncIn :=
  { worktreeGitmodules :=
      [⟨"B", [("path", "B"), ("url", "uB")]⟩,
       ⟨"C", [("path", "C"), ("url", "uC")]⟩,
       ⟨"D", [("path", "D"), ("url", "uD"), ("upstreamurl", "uuD"),
              ("upstreamtype", "git"), ("revision", "master")]⟩]
  , indexGitmodules :=
      [⟨"A", [("path", "A"), ("url", "uA")]⟩,
       ⟨"B", [("path", "B"), ("url", "uB")]⟩,
       ⟨"C", [("path", "C"), ("url", "uC")]⟩]
  , registry := ["A", "B", "C"]
  , gitconfig := [⟨"A", [("url", "uA")]⟩, ⟨"B", [("url", "uB")]⟩,
                  ⟨"C", [("url", "uC")]⟩]
  , worktree := ["A", "B", "C"] }

/-- Concrete instantiation of the amended reconciliation-convergence theorem
at the A,B,C to B,C,D example, discharging the hypotheses by evaluation. -/
theorem sync_gitmodules_registry_converges_witness :
    (syncDemoIn.registry.Nodup ∧
     (list_submodules syncDemoIn.indexGitmodules).Nodup ∧
     (list_submodules syncDemoIn.worktreeGitmodules).Nodup ∧
     (∀ p ∈ syncDemoIn.registry, p ∈ list_submodules syncDemoIn.indexGitmodules) ∧
     (∀ p ∈ list_submodules syncDemoIn.indexGitmodules, p ∈ syncDemoIn.registry)) ∧
    ((sync_gitmodules syncDemoIn).failed = false ∧
     (sync_gitmodules syncDemoIn).canonicalGitmodules
        = some syncDemoIn.worktreeGitmodules ∧
     (∀ m ∈ list_submodules syncDemoIn.indexGitmodules,
        m ∉ list_submodules syncDemoIn.worktreeGitmodules →
        m ∉ (sync_gitmodules syncDemoIn).registry) ∧
     (∀ m ∈ list_submodules syncDemoIn.worktreeGitmodules,
        m ∉ list_submodules syncDemoIn.indexGitmodules →
        m ∈ (sync_gitmodules syncDemoIn).registry) ∧
     (∀ m ∈ list_submodules syncDemoIn.worktreeGitmodules,
        m ∈ list_submodules syncDemoIn.indexGitmodules →
        m ∈ (sync_gitmodules syncDemoIn).registry ∧
        (∀ k, sGet (sync_gitmodules syncDemoIn).gitconfig m k
            = sGet syncDemoIn.gitconfig m k)) ∧
     (∀ p, p ∈ (sync_gitmodules syncDemoIn).registry ↔
        p ∈ list_submodules syncDemoIn.worktreeGitmodules)) :=
  ⟨by decide,
    sync_gitmodules_registry_converges syncDemoIn
      (by decide) (by decide) (by decide) (by decide) (by decide) (by decide)
      (by decide)⟩

/-- An input on which the original claim C1 fails: the temporary copy (the
prior working-tree file) declares only A, the canonical newly-restored
tracked file declares only B, and B is the sole registered submodule. -/
def syncSwapIn : SyncIn :=
  { worktreeGitmodules :=
      [⟨"A", [("path", "A"), ("url", "uA"), ("upstreamurl", "uuA"),
              ("upstreamtype", "git"), ("revision", "master")]⟩]
  , indexGitmodules := [⟨"B", [("path", "B"), ("url", "uB")]⟩]
  , registry := ["B"]
  , gitconfig := [⟨"B", [("url", "uB")]⟩]
  , worktree := ["B"] }

/-- Claim C1 as stated is false: with previous = declared(temporary copy)
= {A} and current = declared(canonical restored file) = {B}, the claim
requires B (in current, not in previous) to be added and hence present in the
registry afterwards; the code instead removes B and adds A. -/
theorem sync_gitmodules_direction_counterexample :
    (sync_gitmodules syncSwapIn).failed = false ∧
    "B" ∉ (sync_gitmodules syncSwapIn).registry ∧
    "A" ∈ (sync_gitmodules syncSwapIn).registry := by decide

/-- Claim C2 as amended: the previous submodule set is computed from the
canonical location after the tracked version is restored there, the current
(target) set from the temporary copy that was moved aside, and every field
read for a newly-added submodule targets the temporary copy — never the
canonical file.  The removal events are exactly the modules declared only in
the canonical restored file, the addition events only concern modules
declared only in the temporary copy, and each such module has its url field
read from the temporary copy. -/
theorem sync_gitmodules_reads_new_fields_from_temp (inp : SyncIn)
    (hnr : inp.registry.Nodup)
    (hprevn : (list_submodules inp.indexGitmodules).Nodup)
    (hcurn : (list_submodules inp.worktreeGitmodules).Nodup)
    (hreg1 : ∀ p ∈ inp.registry, p ∈ list_submodules inp.indexGitmodules)
    (hreg2 : ∀ p ∈ list_submodules inp.indexGitmodules, p ∈ inp.registry)
    (hgc : ∀ m ∈ list_submodules inp.indexGitmodules,
        m ∉ list_submodules inp.worktreeGitmodules → hasSection inp.gitconfig m = true)
    (hnew : ∀ m ∈ list_submodules inp.worktreeGitmodules,
        m ∉ list_submodules inp.indexGitmodules →
        sGet inp.worktreeGitmodules m "path" = some m ∧
        (sGet inp.worktreeGitmodules m "url").isSome = true ∧
        (sGet inp.worktreeGitmodules m "upstreamurl").isSome = true ∧
        (sGet inp.worktreeGitmodules m "upstreamtype").isSome = true ∧
        (sGet inp.worktreeGitmodules m "revision").isSome = true ∧
        m ∉ inp.worktree) :
    (∀ e ∈ (sync_gitmodules inp).events, e.isCanonicalRead = false) ∧
    (∀ m, SyncEvent.rmModule m ∈ (sync_gitmodules inp).events ↔
        (m ∈ list_submodules inp.indexGitmodules ∧
         m ∉ list_submodules inp.worktreeGitmodules)) ∧
    (∀ p u uu ty rv, SyncEvent.addModule p u uu ty rv ∈ (sync_gitmodules inp).events →
        p ∈ list_submodules inp.worktreeGitmodules ∧
        p ∉ list_submodules inp.indexGitmodules) ∧
    (∀ p ∈ list_submodules inp.worktreeGitmodules,
        p ∉ list_submodules inp.indexGitmodules →
        (∃ u uu ty rv, SyncEvent.addModule p u uu ty rv ∈ (sync_gitmodules inp).events) ∧
        SyncEvent.readField FileId.temp p "url" ∈ (sync_gitmodules inp).events) := by
  obtain ⟨-, -, -, -, -, h6, h7, h8, h9⟩ :=
    sync_gitmodules_run inp hnr hprevn hcurn hreg1 hreg2 hgc hnew
  exact ⟨h6, h7, h8, h9⟩

/-- Concrete instantiation of the read-sources theorem at the A,B,C to B,C,D
example, discharging the hypotheses by evaluation. -/
theorem sync_gitmodules_reads_new_fields_from_temp_witness :
    ((∀ m ∈ list_submodules syncDemoIn.worktreeGitmodules,
        m ∉ list_submodules syncDemoIn.indexGitmodules →
        sGet syncDemoIn.worktreeGitmodules m "path" = some m ∧
        (sGet syncDemoIn.worktreeGitmodules m "url").isSome = true ∧
        (sGet syncDemoIn.worktreeGitmodules m "upstreamurl").isSome = true ∧
        (sGet syncDemoIn.worktreeGitmodules m "upstreamtype").isSome = true ∧
        (sGet syncDemoIn.worktreeGitmodules m "revision").isSome = true ∧
        m ∉ syncDemoIn.worktree)) ∧
    ((∀ e ∈ (sync_gitmodules syncDemoIn).events, e.isCanonicalRead = false) ∧
     (∀ m, SyncEvent.rmModule m ∈ (sync_gitmodules syncDemoIn).events ↔
        (m ∈ list_submodules syncDemoIn.indexGitmodules ∧
         m ∉ list_submodules syncDemoIn.worktreeGitmodules)) ∧
     (∀ p u uu ty rv,
        SyncEvent.addModule p u uu ty rv ∈ (sync_gitmodules syncDemoIn).events →
        p ∈ list_submodules syncDemoIn.worktreeGitmodules ∧
        p ∉ list_submodules syncDemoIn.indexGitmodules) ∧
     (∀ p ∈ list_submodules syncDemoIn.worktreeGitmodules,
        p ∉ list_submodules syncDemoIn.indexGitmodules →
        (∃ u uu ty rv,
          SyncEvent.addModule p u uu ty rv ∈ (sync_gitmodules syncDemoIn).events) ∧
        SyncEvent.readField FileId.temp p "url" ∈ (sync_gitmodules syncDemoIn).events)) :=
  ⟨by decide,
    sync_gitmodules_reads_new_fields_from_temp syncDemoIn
      (by decide) (by decide) (by decide) (by decide) (by decide) (by decide)
      (by decide)⟩

/-- An input on which the original claim C2 fails: the temporary copy
declares A (with full metadata) and B, the canonical restored file declares
only B; A is newly added. -/
def syncSourceIn : SyncIn :=
  { worktreeGitmodules :=
      [⟨"A", [("path", "A"), ("url", "uA"), ("upstreamurl", "uuA"),
              ("upstreamtype", "git"), ("revision", "master")]⟩,
       ⟨"B", [("path", "B"), ("url", "uB")]⟩]
  , indexGitmodules := [⟨"B", [("path", "B"), ("url", "uB")]⟩]
  , registry := ["B"]
  , gitconfig := [⟨"B", [("url", "uB")]⟩]
  , worktree := ["B"] }

/-- Claim C2 as stated is false: were previous computed from the temporary
copy ({A, B}) and current from the canonical restored file ({B}), no module
would be newly added; and were the fields of a newly-added module read from
the canonical file, the read would target the canonical file.  The code
instead adds A, succeeds, reads the url of A from the temporary copy, and
performs no read against the canonical file at all. -/
theorem sync_gitmodules_source_counterexample :
    (sync_gitmodules syncSourceIn).failed = false ∧
    "A" ∈ (sync_gitmodules syncSourceIn).registry ∧
    "A" ∉ (list_submodules syncSourceIn.indexGitmodules) ∧
    SyncEvent.readField FileId.temp "A" "url" ∈ (sync_gitmodules syncSourceIn).events ∧
    (∀ e ∈ (sync_gitmodules syncSourceIn).events, e.isCanonicalRead = false) := by
  decide

/-- An input on which sync_gitmodules raises mid-run: the temporary copy
declares a new module D whose section lacks the upstreamurl key, so the
config read of submodule.D.upstreamurl exits nonzero and the exception
propagates. -/
def syncFailIn : SyncIn :=
  { worktreeGitmodules := [⟨"D", [("path", "D"), ("url", "uD")]⟩]
  , indexGitmodules := []
  , registry := []
  , gitconfig := []
  , worktree := [] }

/-- Claim C3 names a guarantee the code does not provide: sync_gitmodules has
no cleanup handler, so when a step raises (here: the upstreamurl read of a
newly-added module fails), the operation returns with the uniquely-named
temporary copy of the declarative file still on disk — a dangling temporary
file, and the canonical file still holding the restored tracked version
rather than the renamed-back copy. -/
theorem sync_gitmodules_dangling_temp_on_failure :
    (sync_gitmodules syncFailIn).failed = true ∧
    (sync_gitmodules syncFailIn).tempGitmodules
        = some syncFailIn.worktreeGitmodules ∧
    (sync_gitmodules syncFailIn).canonicalGitmodules
        = some syncFailIn.indexGitmodules := by
  decide

/- ===================================================================
   Batch operations over submodules (claim C4)

   checkout_modules reads each module's declared revision (a config read
   that raises when the key is absent) and runs git checkout in the module
   through git_command with the default exceptions=True, so a nonzero exit
   raises and aborts the loop.  fetch_modules passes exceptions=False: the
   CalledProcessError of a failed fetch is caught and printed, and the loop
   continues; the assert_is_submodule check inside git_command still raises
   either way.  The environment abstracts the config contents and the
   outcome of each external invocation.
   =================================================================== -/

structure BatchEnv where
  isSub : String → Bool
  revisionOf : String → Option String
  checkoutOk : String → String → Bool
  fetchOk : String → Bool

/-- Source method checkout_modules: for each module, read its revision
(raises when absent), then git_command checkout with exceptions=True —
assert_is_submodule raises for a non-submodule, and a nonzero checkout exit
raises.  Returns the modules for which an external checkout was invoked, and
whether the loop was aborted by a raise. -/
def checkout_modules (env : BatchEnv) : List String → List String × Bool
  | [] => ([], false)
  | m :: rest =>
    match env.revisionOf m with
    | none => ([], true)
    | some rev =>
      if env.isSub m then
        if env.checkoutOk m rev then
          ((checkout_modules env rest).1.cons m, (checkout_modules env rest).2)
        else ([m], true)
      else ([], true)

/-- Source method fetch_modules: for each module, git_command fetch with
exceptions=False — assert_is_submodule still raises for a non-submodule, but
a nonzero fetch exit is caught and only printed, so the loop continues.
Returns the per-module fetch outcome for each module attempted, and whether
the loop was aborted by a raise. -/
def fetch_modules (env : BatchEnv) : List String → List (String × Bool) × Bool
  | [] => ([], false)
  | m :: rest =>
    if env.isSub m then
      ((fetch_modules env rest).1.cons (m, env.fetchOk m), (fetch_modules env rest).2)
    else ([], true)

/-- Per-module precondition under which the checkout loop gets past a
module: the revision key exists, the path is a submodule and the external
checkout exits zero. -/
def checkoutStepOk (env : BatchEnv) (m : String) : Bool :=
  env.isSub m &&
    (match env.revisionOf m with
     | some rev => env.checkoutOk m rev
     | none => false)

/-- Claim C4 as amended: both batch loops process the paths in input order,
but only fetch_modules has best-effort semantics — a nonzero fetch exit is
caught, reported and the remaining paths are still attempted (the loop only
aborts when a path is not a submodule).  checkout_modules runs each external
checkout with exceptions enabled: the first per-path failure raises, the
batch stops, and the remaining paths are not attempted. -/
theorem checkout_stops_fetch_continues :
    (∀ env ms, ∃ k, (checkout_modules env ms).1 = ms.take k) ∧
    (∀ env pre m post rev,
      (∀ x ∈ pre, checkoutStepOk env x = true) →
      env.revisionOf m = some rev → env.isSub m = true →
      env.checkoutOk m rev = false →
      checkout_modules env (pre ++ m :: post) = (pre ++ [m], true)) ∧
    (∀ env ms, (∀ x ∈ ms, env.isSub x = true) →
      fetch_modules env ms = (ms.map (fun x => (x, env.fetchOk x)), false)) := by
  refine ⟨?_, ?_, ?_⟩
  · intro env ms
    induction ms with
    | nil => exact ⟨0, rfl⟩
    | cons m rest ih =>
      simp only [checkout_modules]
      match hrev : env.revisionOf m with
      | none => exact ⟨0, rfl⟩
      | some rev =>
        by_cases hsub : env.isSub m
        · by_cases hok : env.checkoutOk m rev
          · obtain ⟨k, hk⟩ := ih
            refine ⟨k + 1, ?_⟩
            simp [hsub, hok, hk, List.take_succ_cons]
          · refine ⟨1, ?_⟩
            simp [hsub, hok]
        · exact ⟨0, by simp [hsub]⟩
  · intro env pre m rest rev hpre hrev hsub hfail
    induction pre with
    | nil =>
      simp only [List.nil_append, checkout_modules, hrev, hsub, hfail]
      simp
    | cons x xs ih =>
      have hx := hpre x (by simp)
      simp only [checkoutStepOk, Bool.and_eq_true] at hx
      obtain ⟨hxsub, hxrev⟩ := hx
      match hxr : env.revisionOf x with
      | none => rw [hxr] at hxrev; simp at hxrev
      | some xrev =>
        rw [hxr] at hxrev
        have hxrev2 : env.checkoutOk x xrev = true := by simpa using hxrev
        have hih := ih (fun y hy => hpre y (by simp [hy]))
        simp [checkout_modules, hxr, hxsub, hxrev2, hih]
  · intro env ms hms
    induction ms with
    | nil => rfl
    | cons m rest ih =>
      have hm := hms m (by simp)
      simp only [fetch_modules, hm, if_pos rfl]
      rw [ih (fun y hy => hms y (by simp [hy]))]
      rfl

/-- A batch environment in which every path is a submodule with revision
master, the external checkout of m2 fails, every other checkout succeeds,
and the fetch of m2 fails. -/
def batchDemoEnv : BatchEnv :=
  { isSub := fun _ => true
  , revisionOf := fun _ => some "master"
  , checkoutOk := fun m _ => m ≠ "m2"
  , fetchOk := fun m => m ≠ "m2" }

/-- Concrete instantiation of the batch-semantics theorem: in a three-path
batch whose second path fails, checkout_modules stops after the failure while
fetch_modules attempts all three and records exactly one failure. -/
theorem checkout_stops_fetch_continues_witness :
    (∀ x ∈ ["m1"], checkoutStepOk batchDemoEnv x = true) ∧
    checkout_modules batchDemoEnv ["m1", "m2", "m3"] = (["m1", "m2"], true) ∧
    fetch_modules batchDemoEnv ["m1", "m2", "m3"]
      = ([("m1", true), ("m2", false), ("m3", true)], false) :=
  ⟨by decide,
   by
    have h := checkout_stops_fetch_continues.2.1 batchDemoEnv ["m1"] "m2" ["m3"]
      "master" (by decide) (by decide) (by decide) (by decide)
    simpa using h,
   by
    have h := checkout_stops_fetch_continues.2.2 batchDemoEnv ["m1", "m2", "m3"]
      (by decide)
    simpa using h⟩

/-- Claim C4 as stated is false for checkout_modules: with the second of
three paths failing its checkout, the loop aborts and the third path is
never attempted. -/
theorem checkout_modules_stops_counterexample :
    (checkout_modules batchDemoEnv ["m1", "m2", "m3"]).2 = true ∧
    "m3" ∉ (checkout_modules batchDemoEnv ["m1", "m2", "m3"]).1 := by
  decide

/- ===================================================================
   remote_status (claims C8, C9)

   The source wraps only the first config read (branch.<branch>.remote) in
   a bare try/except that returns None; that read goes through git_command
   with a module argument, which first runs assert_is_submodule (raising
   ValueError for a non-submodule) and then the subprocess (raising
   CalledProcessError on a nonzero exit, e.g. key absent or config store
   unreachable).  Every one of those exceptions is caught by the bare
   except and mapped to the sentinel None.  The second config read
   (branch.<branch>.merge) is outside the try and propagates.  Each
   rev-list output line is split at its first space into (SHA1, title);
   a line with no space makes the tuple unpacking raise.
   =================================================================== -/

/-- Why a config read through the external store can fail. -/
inductive ReadErr
  | missingKey
  | storeUnreachable
deriving DecidableEq

/-- Environment of one remote_status call: whether the module passes the
submodule check, the results of the two branch config reads, and the
rev-list output lines for each range argument. -/
structure RSEnv where
  isSub : Bool
  branchRemote : Except ReadErr String
  branchMerge : Except ReadErr String
  revList : String → List String

/-- The two one-sided commit-difference lists of (SHA1, title) pairs. -/
structure RStatus where
  only_upstream : List (String × String)
  only_downstream : List (String × String)
deriving DecidableEq

/-- Model of re.sub applied to an anchored refs/heads/ pattern: remove the
leading refs/heads/ (eleven characters) when present. -/
def stripRefsHeads (ref : String) : String :=
  if ref.data.take 11 = "refs/heads/".data then ⟨ref.data.drop 11⟩ else ref

/-- Split a character list at the first occurrence of a separator. -/
def splitAtFirst (sep : Char) : List Char → Option (List Char × List Char)
  | [] => none
  | c :: rest =>
    if c = sep then some ([], rest)
    else
      match splitAtFirst sep rest with
      | none => none
      | some (a, b) => some (c :: a, b)

/-- Model of Python str.split with a space separator and maxsplit one,
unpacked into a pair: splits at the first space; a line without any space
makes the unpacking raise (none). -/
def pySplitOnce (s : String) : Option (String × String) :=
  match splitAtFirst ' ' s.data with
  | none => none
  | some (a, b) => some (⟨a⟩, ⟨b⟩)

/-- Source method remote_status.  Except.error models a propagated
exception; Except.ok none is the no-remote sentinel (the source returns
None); Except.ok (some r) is the normal result. -/
def remote_status (env : RSEnv) (branch : String) : Except Unit (Option RStatus) :=
  if env.isSub = false then .ok none
  else
    match env.branchRemote with
    | .error _ => .ok none
    | .ok remote =>
      match env.branchMerge with
      | .error _ => .error ()
      | .ok remote_ref =>
        match (env.revList (branch ++ ".." ++ remote ++ "/" ++ stripRefsHeads remote_ref)).mapM
            pySplitOnce with
        | none => .error ()
        | some ups =>
          match (env.revList (remote ++ "/" ++ stripRefsHeads remote_ref ++ ".." ++ branch)).mapM
              pySplitOnce with
          | none => .error ()
          | some downs => .ok (some ⟨ups, downs⟩)

/-- Claim C8: when the branch has no configured remote the method returns the
no-remote sentinel and never raises; when the branch has a remote (and its
merge ref is readable and each rev-list line splits into id and title) it
returns the two one-sided commit-difference lists of (id, title) pairs. -/
theorem remote_status_sentinel_and_result (env : RSEnv) (branch : String) :
    (env.branchRemote = .error ReadErr.missingKey →
      remote_status env branch = .ok none) ∧
    (∀ remote remote_ref ups downs,
      env.isSub = true →
      env.branchRemote = .ok remote →
      env.branchMerge = .ok remote_ref →
      (env.revList (branch ++ ".." ++ remote ++ "/" ++ stripRefsHeads remote_ref)).mapM
          pySplitOnce = some ups →
      (env.revList (remote ++ "/" ++ stripRefsHeads remote_ref ++ ".." ++ branch)).mapM
          pySplitOnce = some downs →
      remote_status env branch = .ok (some ⟨ups, downs⟩)) := by
  constructor
  · intro hrem
    unfold remote_status
    by_cases hsub : env.isSub = false
    · rw [if_pos hsub]
    · rw [if_neg hsub, hrem]
  · intro remote remote_ref ups downs hsub hrem hmer hups hdowns
    unfold remote_status
    rw [if_neg (by simp [hsub])]
    simp only [hrem, hmer, hups, hdowns]

/-- An environment whose branch has no configured remote. -/
def rsNoRemoteEnv : RSEnv :=
  { isSub := true
  , branchRemote := .error ReadErr.missingKey
  , branchMerge := .ok "refs/heads/master"
  , revList := fun _ => [] }

/-- An environment whose branch tracks origin/master, with one commit on
each side of the tracked branch. -/
def rsTrackedEnv : RSEnv :=
  { isSub := true
  , branchRemote := .ok "origin"
  , branchMerge := .ok "refs/heads/master"
  , revList := fun r =>
      if r = "master..origin/master" then ["aaa111 upstream only"]
      else ["bbb222 downstream only"] }

/-- Concrete instantiation of the remote_status theorem: the no-remote
environment yields the sentinel, and the tracked environment yields the two
one-sided (id, title) lists, with every hypothesis discharged by
evaluation. -/
theorem remote_status_sentinel_and_result_witness :
    (rsNoRemoteEnv.branchRemote = .error ReadErr.missingKey ∧
      remote_status rsNoRemoteEnv "master" = .ok none) ∧
    (rsTrackedEnv.isSub = true ∧
      remote_status rsTrackedEnv "master"
        = .ok (some ⟨[("aaa111", "upstream only")], [("bbb222", "downstream only")]⟩)) :=
  ⟨⟨rfl,
    (remote_status_sentinel_and_result rsNoRemoteEnv "master").1 rfl⟩,
   ⟨rfl,
    (remote_status_sentinel_and_result rsTrackedEnv "master").2
      "origin" "refs/heads/master"
      [("aaa111", "upstream only")] [("bbb222", "downstream only")]
      rfl rfl rfl (by decide) (by decide)⟩⟩

/-- Claim C9: every failure of the first read — a missing branch remote, an
unreachable config store, or the module failing the submodule check that
git_command performs before the read — is swallowed by the bare except
handler and mapped to the same no-remote sentinel, so remote_status cannot
distinguish these conditions. -/
theorem remote_status_swallows_first_read_failures (env : RSEnv) (branch : String)
    (h : env.isSub = false ∨ ∃ e, env.branchRemote = Except.error e) :
    remote_status env branch = .ok none := by
  unfold remote_status
  rcases h with hsub | ⟨e, herr⟩
  · rw [if_pos hsub]
  · by_cases hsub : env.isSub = false
    · rw [if_pos hsub]
    · rw [if_neg hsub, herr]

/-- Concrete instantiation of the catch-all theorem: an environment in which
the module is not a submodule, and one in which the config store is
unreachable, both map to the sentinel. -/
theorem remote_status_swallows_first_read_failures_witness :
    remote_status
      { isSub := false
      , branchRemote := Except.ok "origin"
      , branchMerge := Except.ok "refs/heads/master"
      , revList := fun _ => [] } "master" = .ok none ∧
    remote_status
      { isSub := true
      , branchRemote := Except.error ReadErr.storeUnreachable
      , branchMerge := Except.ok "refs/heads/master"
      , revList := fun _ => [] } "master" = .ok none :=
  ⟨remote_status_swallows_first_read_failures _ "master" (Or.inl (by decide)),
   remote_status_swallows_first_read_failures _ "master"
     (Or.inr ⟨ReadErr.storeUnreachable, rfl⟩)⟩

/- ===================================================================
   upstream_init (claim C10)

   The source asserts the submodule precondition on the path exactly as
   given, then strips trailing slashes, and from that point on every
   metadata read (upstreamtype, upstreamurl, revision — config reads
   against .gitmodules) and every per-kind external operation uses the
   stripped path: git_command calls pass it as the module (re-asserting
   the submodule check on the stripped path first), and the hg branch
   derives its clone directory <path>.hg and hgrc contents from it.
   The run is modelled as the list of actions performed, in order, plus
   whether it ended in a raise; plain call invocations (the hg branch)
   ignore the exit status, and the hgrc file append is modelled as always
   succeeding.
   =================================================================== -/

/-- Model of Python path.rstrip with a slash argument. -/
def pyRstripSlash (s : String) : String :=
  ⟨pyRstrip '/' s.data⟩

structure UEnv where
  isSub : String → Bool
  upstreamtypeOf : String → Option String
  upstreamurlOf : String → Option String
  revisionOf : String → Option String
  gitOk : String → List String → Bool

/-- One action of an upstream_init run.  base is the submodule path the
action is keyed on: the asserted path, the config section read, the module a
git command runs in, or the path an hg bridge command and the hgrc append are
derived from. -/
inductive UAct
  | assertSub (p : String)
  | readType (p : String)
  | readUrl (p : String)
  | readRev (p : String)
  | git (module : String) (args : List String)
  | hg (base : String) (args : List String)
  | writeHgrc (base : String)
deriving DecidableEq

def UAct.base : UAct → String
  | .assertSub p => p
  | .readType p => p
  | .readUrl p => p
  | .readRev p => p
  | .git m _ => m
  | .hg b _ => b
  | .writeHgrc b => b

/-- The body of upstream_init after the initial assertion, operating on the
already-stripped path q: read upstreamtype and upstreamurl (each read raises
when its key is absent), then branch on the type.  svn: read revision, then
checkout, svn init and svn fetch in the module (each a git_command that
re-asserts the submodule check and raises on nonzero exit).  git: one
remote-add in the module.  hg: clone into q.hg, append the bridge stanza to
its hgrc, bookmark, gexport and pull (plain call invocations whose exit
status is ignored).  Any other type: report and return normally. -/
def upstream_init_core (env : UEnv) (q : String) : List UAct × Bool :=
  match env.upstreamtypeOf q with
  | none => ([UAct.readType q], true)
  | some ty =>
    match env.upstreamurlOf q with
    | none => ([UAct.readType q, UAct.readUrl q], true)
    | some url =>
      if ty = "svn" then
        match env.revisionOf q with
        | none => ([UAct.readType q, UAct.readUrl q, UAct.readRev q], true)
        | some rev =>
          if env.isSub q = false then
            ([UAct.readType q, UAct.readUrl q, UAct.readRev q, UAct.assertSub q], true)
          else if env.gitOk q ["checkout", rev] = false then
            ([UAct.readType q, UAct.readUrl q, UAct.readRev q, UAct.assertSub q,
              UAct.git q ["checkout", rev]], true)
          else if env.gitOk q ["svn", "init", "-s", "--prefix=origin/", url] = false then
            ([UAct.readType q, UAct.readUrl q, UAct.readRev q, UAct.assertSub q,
              UAct.git q ["checkout", rev], UAct.assertSub q,
              UAct.git q ["svn", "init", "-s", "--prefix=origin/", url]], true)
          else
            ([UAct.readType q, UAct.readUrl q, UAct.readRev q, UAct.assertSub q,
              UAct.git q ["checkout", rev], UAct.assertSub q,
              UAct.git q ["svn", "init", "-s", "--prefix=origin/", url], UAct.assertSub q,
              UAct.git q ["svn", "fetch"]],
             !env.gitOk q ["svn", "fetch"])
      else if ty = "git" then
        if env.isSub q = false then
          ([UAct.readType q, UAct.readUrl q, UAct.assertSub q], true)
        else
          ([UAct.readType q, UAct.readUrl q, UAct.assertSub q,
            UAct.git q ["remote", "add", "upstream", url]],
           !env.gitOk q ["remote", "add", "upstream", url])
      else if ty = "hg" then
        ([UAct.readType q, UAct.readUrl q,
          UAct.hg q ["clone", url, q ++ ".hg"], UAct.writeHgrc q,
          UAct.hg q ["-R", q ++ ".hg", "bookmark", "master", "-r", "default"],
          UAct.hg q ["-R", q ++ ".hg", "gexport"],
          UAct.hg q ["-R", q ++ ".hg", "pull", "git"]], false)
      else
        ([UAct.readType q, UAct.readUrl q], false)

/-- Source method upstream_init: assert the submodule precondition on the
path as given (unstripped), then strip trailing slashes and run the body on
the stripped path. -/
def upstream_init (env : UEnv) (path : String) : List UAct × Bool :=
  if env.isSub path = false then ([UAct.assertSub path], true)
  else
    ((upstream_init_core env (pyRstripSlash path)).1.cons (UAct.assertSub path),
     (upstream_init_core env (pyRstripSlash path)).2)

theorem upstream_init_core_base (env : UEnv) (q : String) :
    ∀ a ∈ (upstream_init_core env q).1, UAct.base a = q := by
  intro a ha
  unfold upstream_init_core at ha
  repeat' split at ha
  all_goals
    simp only [List.mem_cons, List.not_mem_nil, or_false] at ha
  all_goals
    try casesm* _ ∨ _
  all_goals
    subst_vars
  all_goals
    rfl

/-- Claim C10: upstream_init first checks the submodule-registration
precondition with the original unstripped path (the run's first action), then
performs every metadata read and every per-kind external operation with the
trailing slashes stripped, so two paths with the same stripped form (for
which the precondition holds) are processed identically after the initial
assertion — a trailing slash never changes which metadata section is
consulted. -/
theorem upstream_init_asserts_unstripped_reads_stripped (env : UEnv) (path : String) :
    (upstream_init env path).1.head? = some (UAct.assertSub path) ∧
    (∀ a ∈ (upstream_init env path).1.tail, UAct.base a = pyRstripSlash path) ∧
    (∀ p2, pyRstripSlash p2 = pyRstripSlash path →
      env.isSub p2 = true → env.isSub path = true →
      (upstream_init env p2).1.tail = (upstream_init env path).1.tail ∧
      (upstream_init env p2).2 = (upstream_init env path).2) := by
  refine ⟨?_, ?_, ?_⟩
  · unfold upstream_init
    by_cases hsub : env.isSub path = false
    · rw [if_pos hsub]
      rfl
    · rw [if_neg hsub]
      rfl
  · intro a ha
    unfold upstream_init at ha
    by_cases hsub : env.isSub path = false
    · rw [if_pos hsub] at ha
      simp at ha
    · rw [if_neg hsub] at ha
      exact upstream_init_core_base env (pyRstripSlash path) a ha
  · intro p2 hstrip hsub2 hsubp
    unfold upstream_init
    rw [if_neg (by rw [hsub2]; simp), if_neg (by rw [hsubp]; simp), hstrip]
    exact ⟨rfl, rfl⟩

/-- An environment in which sub is a registered submodule of the git kind,
with and without a trailing slash, and full metadata for sub. -/
def uDemoEnv : UEnv :=
  { isSub := fun _ => true
  , upstreamtypeOf := fun _ => some "git"
  , upstreamurlOf := fun _ => some "http+u"
  , revisionOf := fun _ => some "master"
  , gitOk := fun _ _ => true }

/-- Concrete instantiation of the upstream_init path-handling theorem at the
path sub with a trailing slash. -/
theorem upstream_init_asserts_unstripped_reads_stripped_witness :
    (upstream_init uDemoEnv "sub/").1.head? = some (UAct.assertSub "sub/") ∧
    (∀ a ∈ (upstream_init uDemoEnv "sub/").1.tail,
        UAct.base a = pyRstripSlash "sub/") ∧
    (∀ p2, pyRstripSlash p2 = pyRstripSlash "sub/" →
      uDemoEnv.isSub p2 = true → uDemoEnv.isSub "sub/" = true →
      (upstream_init uDemoEnv p2).1.tail = (upstream_init uDemoEnv "sub/").1.tail ∧
      (upstream_init uDemoEnv p2).2 = (upstream_init uDemoEnv "sub/").2) :=
  upstream_init_asserts_unstripped_reads_stripped uDemoEnv "sub/"
